import Mathlib

/-!
Shallow embedding of the byre repository's extraction-and-reconciliation
core (src/byre/bt.py and src/byre/api.py) together with theorems checking
the natural-language specification's claims against it.

Strings that get parsed character by character are modelled as `List Char`
(`Str`); opaque labels (categories, CSS selectors, table labels) stay
`String`.  Python exceptions are modelled with `Except String`; external
library calls (datetime parsing, float parsing, size parsing,
`os.path.realpath`) are parameters of the embedded functions.
-/

namespace ByreSpec

/-- Character-list strings, for the name-parsing parts of the code. -/
abbrev Str := List Char

/-- ASCII decimal digit test (`0`-`9`), used to model `\d` and `str.isdigit`. -/
def isDig (c : Char) : Bool := 48 ≤ c.toNat && c.toNat ≤ 57

/-- Python's regex `\w` word character, modelled over ASCII:
digits, letters and underscore. -/
def isWordChar (c : Char) : Bool :=
  isDig c || (65 ≤ c.toNat && c.toNat ≤ 90) || (97 ≤ c.toNat && c.toNat ≤ 122) || c = '_'

/-- ASCII alphanumeric character (letters and digits, no underscore). -/
def isAlnumChar (c : Char) : Bool :=
  isDig c || (65 ≤ c.toNat && c.toNat ≤ 90) || (97 ≤ c.toNat && c.toNat ≤ 122)

/-- Value of a list of decimal digit characters, most significant first. -/
def digitsVal (l : Str) : Nat := l.foldl (fun a c => a * 10 + (c.toNat - 48)) 0

/-- Python `int(s)` on a plain string: optional sign followed by a nonempty
digit run, `none` when the string does not parse (`ValueError`).
Surrounding whitespace and digit-group underscores are out of scope here. -/
def parsePyInt (s : Str) : Option Int :=
  match s with
  | [] => none
  | c :: rest =>
    if c = '-' then
      if rest ≠ [] ∧ rest.all isDig then some (-(digitsVal rest : Int)) else none
    else if c = '+' then
      if rest ≠ [] ∧ rest.all isDig then some ((digitsVal rest : Int)) else none
    else if (c :: rest).all isDig then some ((digitsVal (c :: rest) : Int)) else none

/-- Modelled from the spec: `byre.utils.int_or` (utils.py is not under src/) —
parse an integer, substituting the default on parse failure
(spec §4.3 step 2: "unparseable/missing cell → 0"). -/
def int_or (s : Str) (d : Int) : Int := (parsePyInt s).getD d

/-- Low-level decimal printer: prepends the digits of `n` to `acc`
(empty output for `n = 0`). -/
def natToDigitsAux (n : Nat) (acc : Str) : Str :=
  if h : n = 0 then acc
  else natToDigitsAux (n / 10) (Char.ofNat (48 + n % 10) :: acc)
termination_by n
decreasing_by exact Nat.div_lt_self (Nat.pos_of_ne_zero h) (by norm_num)

/-- Python `str(n)` for a natural number. -/
def natRepr (n : Nat) : Str := if n = 0 then ['0'] else natToDigitsAux n []

/-- Python `str(i)` for an integer. -/
def intRepr (i : Int) : Str :=
  if i < 0 then '-' :: natRepr i.natAbs else natRepr i.toNat

/-- Python `str.index(c)`: index of the first occurrence of `c`,
`none` when absent (`ValueError`). -/
def strIndex (c : Char) : Str → Option Nat
  | [] => none
  | x :: xs => if x = c then some 0 else (strIndex c xs).map (· + 1)

/-- Python `str.strip()` restricted to ASCII whitespace. -/
def isSpaceChar (c : Char) : Bool := c = ' ' || c = '\t' || c = '\n' || c = '\r'

/-- Python `str.strip()`. -/
def pyStrip (l : Str) : Str :=
  ((l.dropWhile isSpaceChar).reverse.dropWhile isSpaceChar).reverse

/-- Python `str.isdigit()` over ASCII: nonempty and all digits. -/
def pyIsdigit (l : Str) : Bool := !l.isEmpty && l.all isDig

/-- The characters of a `String` literal. -/
def toChars (s : String) : Str := s.data

/-- POSIX `os.path.join` for two components (the absolute-`b` and
trailing-slash checks written over the character lists so they evaluate). -/
def joinPath (a b : String) : String :=
  if (toChars b).head? = some '/' then b
  else if a = "" then b
  else if (toChars a).getLast? = some '/' then a ++ b
  else a ++ "/" ++ b

/-! ## Data model

`byre/data.py` / `byre/clients/data.py` are not under src/, so the record
shapes below are modelled from the spec's §3 data model, with exactly the
fields the embedded code reads or writes. -/

/-- Promotion flags (`PROMOTION_*` constants of `byre.data`). -/
inductive Promotion where
  | free
  | twoUp
  | halfDown
  | thirtyDown
deriving DecidableEq, Repr

def PROMOTION_FREE : Promotion := .free
def PROMOTION_TWO_UP : Promotion := .twoUp
def PROMOTION_HALF_DOWN : Promotion := .halfDown
def PROMOTION_THIRTY_DOWN : Promotion := .thirtyDown

/-- Modelled from the spec: `ByrUser` (§3 UserRecord) — field defaults per
the spec (absent ranking, zero counters, not connectable). -/
structure ByrUser where
  user_id : Int := 0
  username : String := ""
  level : String := ""
  mana : Rat := 0
  invitations : Option Int := none
  ratio : Rat := 0
  uploaded : Rat := 0
  downloaded : Rat := 0
  ranking : Option Int := none
  seeding : Int := 0
  downloading : Int := 0
  connectable : Bool := false
deriving DecidableEq, Repr

/-- Modelled from the spec: `TorrentInfo` (§3 TorrentRecord) — one remote
catalog entry, with the fields the embedded code reads or writes. -/
structure TorrentInfo where
  title : Str := []
  sub_title : String := ""
  seed_id : Int := 0
  site : Str := []
  cat : String := ""
  category : String := ""
  second_category : String := ""
  promotions : List Promotion := []
  file_size : Rat := 0
  live_time : Rat := 0
  seeders : Int := 0
  leechers : Int := 0
  finished : Int := 0
  comments : Int := 0
  uploader : ByrUser := {}
  uploaded : Rat := 0
  downloaded : Rat := 0
deriving DecidableEq, Repr

/-- Modelled from the spec: a local torrent (§3 LocalTorrentRef) — the
fields of `LocalTorrent` / its wrapped qBittorrent record that
`bt.py` reads (`torrent.hash`, `torrent.name`, `torrent.save_path`). -/
structure LocalTorrent where
  hash : String := ""
  name : Str := []
  savePath : String := ""
  seedId : Int := 0
  site : Str := []
deriving DecidableEq, Repr

/-! ## BtClient (src/byre/bt.py) -/

/-- One `client.torrents_delete` call issued by `remove_torrent`. -/
structure DeleteCall where
  deleteFiles : Bool
  hashes : List String
deriving DecidableEq, Repr

/-- `BtClient.remove_torrent` (bt.py:147-169): the ordered list of
`torrents_delete` calls it issues.  With `extra` present it first deletes
all the extra torrents with `delete_files=False`, then deletes `torrent`
with `delete_files=True` (the `time.sleep` between them carries no
state and is not modelled). -/
def remove_torrent (torrent : LocalTorrent)
    (extra : Option (List LocalTorrent)) : List DeleteCall :=
  match extra with
  | some ts =>
    [⟨false, ts.map (·.hash)⟩, ⟨true, [torrent.hash]⟩]
  | none => [⟨true, [torrent.hash]⟩]

/-- Flatten delete calls into per-torrent removal events, in issued order. -/
def deleteEvents (cs : List DeleteCall) : List (Bool × String) :=
  cs.flatMap (fun c => c.hashes.map (fun h => (c.deleteFiles, h)))

/-- `BtClient._generate_rename` (bt.py:228-230):
`f"[{info.site}-{info.seed_id}]{info.title}"`. -/
def generate_rename (info : TorrentInfo) : Str :=
  '[' :: (info.site ++ '-' :: (intRepr info.seed_id ++ ']' :: info.title))

/-- The regex match `re.match("^\\[(\\w+)-\\d+]", name)` of
`BtClient.local_torrent_from`: returns the captured site group. -/
def matchSiteTag (name : Str) : Option Str :=
  match name with
  | [] => none
  | c :: rest =>
    if c = '[' then
      let w := rest.takeWhile isWordChar
      if w.isEmpty then none
      else
        match rest.dropWhile isWordChar with
        | [] => none
        | c1 :: r2 =>
          if c1 = '-' then
            let d := r2.takeWhile isDig
            if d.isEmpty then none
            else
              match r2.dropWhile isDig with
              | [] => none
              | c2 :: _ => if c2 = ']' then some w else none
          else none
    else none

/-- `BtClient.local_torrent_from` (bt.py:198-216): recover `(site, seed_id)`
from a local display name; `Except.error` models the raised `ValueError`
(including the `ValueError` of `str.index` when `]` is absent). -/
def local_torrent_from (name : Str) (site : Option Str) : Except String (Str × Int) :=
  match (match site with | none => matchSiteTag name | some s => some s) with
  | none => .error ("种子命名不符合要求：" ++ String.mk name)
  | some s =>
    let pre : Str := '[' :: (s ++ ['-'])
    if pre.isPrefixOf name then
      match strIndex ']' name with
      | none => .error "substring not found"
      | some i =>
        let seed_id := int_or ((name.drop pre.length).take (i - pre.length)) 0
        if seed_id ≠ 0 then .ok (s, seed_id)
        else .error ("种子命名不符合要求：" ++ String.mk name)
    else .error ("种子命名不符合要求：" ++ String.mk name)

/-- The local identity matcher: `local_torrent_from` with the site
recovered from the name itself. -/
def identify (name : Str) : Except String (Str × Int) :=
  local_torrent_from name none

/-- `BtClient._get_download_dir` (bt.py:218-226); `realpath` stands for
`os.path.realpath`, an OS effect passed in as a function. -/
def get_download_dir (realpath : String → String)
    (download_dir : String) (torrent : TorrentInfo) : String :=
  if torrent.second_category = "" then
    joinPath (realpath download_dir) torrent.category
  else
    joinPath (joinPath (realpath download_dir) torrent.category) torrent.second_category

/-- The `exists` argument of `BtClient.add_torrent`
(`typing.Union[bool, LocalTorrent]`). -/
inductive ExistsArg where
  | boolArg (b : Bool)
  | localT (t : LocalTorrent)
deriving DecidableEq, Repr

/-- Python truthiness `bool(exists)`: an object is truthy. -/
def ExistsArg.toBool : ExistsArg → Bool
  | .boolArg b => b
  | .localT _ => true

/-- Python `int()` truncation toward zero on a rational. -/
def pyIntTrunc (q : Rat) : Int := q.num / (q.den : Int)

/-- The `client.torrents_add` call issued by `add_torrent`. -/
structure AddCall where
  savePath : String
  category : String
  skipChecking : Bool
  paused : Bool
  rename : Str
  tags : List Str
  uploadLimit : Int
deriving DecidableEq, Repr

/-- `BtClient.add_torrent` (bt.py:115-140): the `torrents_add` call it
issues.  When `exists` is a `LocalTorrent` the save path is that torrent's
save path, otherwise it is derived via `_get_download_dir`; hash checking
is skipped exactly when `bool(exists)` is true. -/
def add_torrent (realpath : String → String) (uploadLimit : Rat)
    (info : TorrentInfo) (download_dir : String) (paused : Bool)
    (ex : ExistsArg) : AddCall :=
  let title := generate_rename info
  let save_path :=
    match ex with
    | .localT t => t.savePath
    | .boolArg _ => get_download_dir realpath download_dir info
  { savePath := save_path
    category := info.category
    skipChecking := ex.toBool
    paused := paused
    rename := title
    tags := [info.site]
    uploadLimit := pyIntTrunc (uploadLimit * 1024 * 1024) }

/-- `BtClient.init_categories` (bt.py:77-91): the ordered list of
`torrents_create_category(category, torrent_dir)` calls issued.  Note the
loop reassigns `download_dir` each time it creates a category; existing
categories are skipped (`continue` fires before the reassignment). -/
def init_categories (realpath : String → String) (download_dir : String)
    (categories : List String) (existing : List String) : List (String × String) :=
  match categories with
  | [] => []
  | c :: rest =>
    if existing.contains c then init_categories realpath download_dir rest existing
    else
      let d := joinPath (realpath download_dir) c
      (c, d) :: init_categories realpath d rest existing

/-! ## ByrApi (src/byre/api.py) -/

/-- The ordered selector table of `ByrApi._extract_promotion_info`
(api.py:372-407), in the source's insertion order (Python dicts preserve
insertion order). -/
def selectors : List (String × List Promotion) :=
  [("tr.free_bg", [PROMOTION_FREE]),
   ("tr.twoup_bg", [PROMOTION_TWO_UP]),
   ("tr.twoupfree_bg", [PROMOTION_FREE, PROMOTION_TWO_UP]),
   ("tr.halfdown_bg", [PROMOTION_HALF_DOWN]),
   ("tr.twouphalfdown_bg", [PROMOTION_HALF_DOWN, PROMOTION_TWO_UP]),
   ("tr.thirtypercentdown_bg", [PROMOTION_THIRTY_DOWN]),
   ("font.free", [PROMOTION_FREE]),
   ("font.twoup", [PROMOTION_TWO_UP]),
   ("font.twoupfree", [PROMOTION_FREE, PROMOTION_TWO_UP]),
   ("font.halfdown", [PROMOTION_HALF_DOWN]),
   ("font.twouphalfdown", [PROMOTION_HALF_DOWN, PROMOTION_TWO_UP]),
   ("font.thirtypercent", [PROMOTION_THIRTY_DOWN]),
   ("img.pro_free", [PROMOTION_FREE]),
   ("img.pro_2up", [PROMOTION_TWO_UP]),
   ("img.pro_free2up", [PROMOTION_FREE, PROMOTION_TWO_UP]),
   ("img.pro_50pctdown", [PROMOTION_HALF_DOWN]),
   ("img.pro_50pctdown2up", [PROMOTION_HALF_DOWN, PROMOTION_TWO_UP]),
   ("img.pro_30pctdown", [PROMOTION_THIRTY_DOWN])]

/-- The `for selector, promotions in selectors.items(): ... return` loop of
`_extract_promotion_info`, over a title cell abstracted as the predicate
`matches : selector → does select_one find a node`. -/
def firstMatch (m : String → Bool) :
    List (String × List Promotion) → List Promotion
  | [] => []
  | (s, p) :: rest => if m s then p else firstMatch m rest

/-- `ByrApi._extract_promotion_info` (api.py:372-407). -/
def extract_promotion_info (m : String → Bool) : List Promotion :=
  firstMatch m selectors

/-- One `<tr>` of the torrents.php table, abstracted to the atomic pieces
`_extract_torrent_table` reads.  `none` in an `Option` field models the
required node/attribute being absent (the Python code would raise when
dereferencing it).  `titleLink` carries the title attribute and the id
already recovered from the `details` href by `_extract_url_id`;
`uploaderLink` likewise for the `userdetails` href.  `promo` is the
title cell's selector predicate for the Promotion Classifier. -/
structure TorrentRow where
  catImgTitle : Option String := none
  commentsText : String := ""
  timeTitle : Option String := none
  sizeText : String := ""
  seedersText : String := ""
  leechersText : String := ""
  finishedText : String := ""
  uploaderLink : Option (Int × String) := none
  titleLink : Option (String × Int) := none
  subtitleBr : Option (Option String) := none
  promo : String → Bool := fun _ => false

/-- One row's extraction inside the loop of `ByrApi._extract_torrent_table`
(api.py:313-370).  `parseIso` models `datetime.datetime.fromisoformat`
(timestamps as seconds), `parseSize` models `utils.convert_byr_size`,
`catMap` models `TorrentInfo.convert_byr_category`, `now` models
`datetime.datetime.now()`; any raised exception becomes `Except.error`. -/
def extract_row (parseIso : String → Option Int) (parseSize : String → Option Rat)
    (catMap : String → String) (now : Int) (row : TorrentRow) :
    Except String TorrentInfo :=
  match row.catImgTitle with
  | none => .error "AttributeError: category img/title missing"
  | some cat =>
    let comments := int_or (toChars row.commentsText) 0
    match row.timeTitle with
    | none => .error "AttributeError: time span/title missing"
    | some timeTitle =>
      match parseIso timeTitle with
      | none => .error "ValueError: fromisoformat"
      | some uploaded_at =>
        match parseSize row.sizeText with
        | none => .error "ValueError: size"
        | some size =>
          let seeders := int_or (toChars row.seedersText) 0
          let leechers := int_or (toChars row.leechersText) 0
          let finished := int_or (toChars row.finishedText) 0
          let user : ByrUser :=
            match row.uploaderLink with
            | some (uid, uname) => { user_id := uid, username := uname }
            | none => { username := "匿名" }
          match row.titleLink with
          | none => .error "AttributeError: details link missing"
          | some tl =>
            let subtitle :=
              match row.subtitleBr with
              | some nodeText => nodeText.getD ""
              | none => ""
            let promotions := extract_promotion_info row.promo
            .ok
              { title := toChars tl.1
                sub_title := subtitle
                seed_id := tl.2
                cat := cat
                category := catMap cat
                promotions := promotions
                file_size := size
                live_time := ((now - uploaded_at : Int) : Rat) / (60 * 60 * 24)
                seeders := seeders
                leechers := leechers
                finished := finished
                comments := comments
                uploader := user
                uploaded := 0
                downloaded := 0 }

/-- `ByrApi._extract_torrent_table` (api.py:313-370): the `for row in rows`
loop appending to `torrents`; an exception in any row propagates out of
the whole call, discarding the partial list. -/
def extract_torrent_table (parseIso : String → Option Int)
    (parseSize : String → Option Rat) (catMap : String → String) (now : Int) :
    List TorrentRow → Except String (List TorrentInfo)
  | [] => .ok []
  | row :: rest =>
    match extract_row parseIso parseSize catMap now row with
    | .error e => .error e
    | .ok t =>
      match extract_torrent_table parseIso parseSize catMap now rest with
      | .error e => .error e
      | .ok ts => .ok (t :: ts)

/-- The label→cell dictionary built by `ByrApi.user_info`, restricted to the
four labels `_extract_user_info` looks up.  `level` is
row-present? / img-present? / title-attr-present?; `transfer` is the list
of `td` cell texts. -/
structure UserInfoTable where
  level : Option (Option (Option String)) := none
  mana : Option String := none
  invitations : Option String := none
  transfer : Option (List String) := none

/-- Python `"..." in s` substring containment. -/
def strContains (s pat : String) : Bool := decide (toChars pat <:+: toChars s)

/-- Python `text.split(":", 1)` after a successful `":" in text` check,
both parts stripped (the `[s.strip() for s in ...]` of api.py:282). -/
def splitColon (text : String) : Option (Str × Str) :=
  match strIndex ':' (toChars text) with
  | none => none
  | some i =>
    some (pyStrip ((toChars text).take i), pyStrip ((toChars text).drop (i + 1)))

/-- The `for cell in transferred.select("td")` loop of
`_extract_user_info` (api.py:277-288); `pfloat` models Python `float`,
`psize` models `utils.convert_byr_size`, failures raise. -/
def applyTransferCells (pfloat : String → Option Rat) (psize : String → Option Rat) :
    List String → ByrUser → Except String ByrUser
  | [], u => .ok u
  | text :: rest, u =>
    match splitColon text with
    | none => applyTransferCells pfloat psize rest u
    | some (field, value) =>
      if field = toChars "分享率" then
        match pfloat (String.mk value) with
        | some v => applyTransferCells pfloat psize rest { u with ratio := v }
        | none => .error "ValueError: float"
      else if field = toChars "上传量" then
        match psize (String.mk value) with
        | some v => applyTransferCells pfloat psize rest { u with uploaded := v }
        | none => .error "ValueError: size"
      else if field = toChars "下载量" then
        match psize (String.mk value) with
        | some v => applyTransferCells pfloat psize rest { u with downloaded := v }
        | none => .error "ValueError: size"
      else applyTransferCells pfloat psize rest u

/-- The `if _LEVEL in info` block of `_extract_user_info` (api.py:263-266). -/
def applyLevel (info : UserInfoTable) (u : ByrUser) : ByrUser :=
  match info.level with
  | some (some title) => { u with level := title.getD "" }
  | _ => u

/-- The `if _MANA in info` block of `_extract_user_info` (api.py:268-269);
`pfloat` models Python `float`, raising on parse failure. -/
def applyMana (pfloat : String → Option Rat) (info : UserInfoTable)
    (u : ByrUser) : Except String ByrUser :=
  match info.mana with
  | some s =>
    match pfloat s with
    | some v => .ok { u with mana := v }
    | none => .error "ValueError: float"
  | none => .ok u

/-- The `if _INVITATIONS in info` block of `_extract_user_info`
(api.py:271-274). -/
def applyInvitations (info : UserInfoTable) (u : ByrUser) :
    Except String ByrUser :=
  match info.invitations with
  | some s =>
    if strContains s "没有邀请资格" then .ok u
    else
      match parsePyInt (toChars s) with
      | some v => .ok { u with invitations := some v }
      | none => .error "ValueError: int"
  | none => .ok u

/-- `ByrApi._extract_user_info` (api.py:260-288): the main profile table's
fields (level, mana, invitations, ratio, uploaded, downloaded), block by
block in source order. -/
def extract_user_info (pfloat : String → Option Rat) (psize : String → Option Rat)
    (info : UserInfoTable) (u : ByrUser) : Except String ByrUser :=
  match applyMana pfloat info (applyLevel info u) with
  | .error e => .error e
  | .ok u1 =>
    match applyInvitations info u1 with
    | .error e => .error e
    | .ok u2 =>
      match info.transfer with
      | some cells => applyTransferCells pfloat psize cells u2
      | none => .ok u2

/-- The `#info_block` pieces `_extract_info_bar` reads: the
`font.color_bonus` tags as (text, following-node text) pairs, the
`str(...)` of the node after each arrow icon when present, and the text of
`font[color=green]` when present. -/
structure InfoBar where
  bonus : List (String × String) := []
  seedingNext : Option String := none
  downloadingNext : Option String := none
  greenText : Option String := none

/-- `ByrApi._extract_info_bar` (api.py:290-311); the `next(...)` over an
empty generator raises `StopIteration`, modelled as `Except.error`. -/
def extract_info_bar (bar : InfoBar) (u : ByrUser) : Except String ByrUser :=
  match bar.bonus.find? (fun e => strContains e.1 "上传排行") with
  | none => .error "StopIteration"
  | some tag =>
    let ranking := pyStrip (toChars tag.2)
    let u := if pyIsdigit ranking then { u with ranking := some (digitsVal ranking : Int) } else u
    let seeding := pyStrip (toChars (bar.seedingNext.getD "0"))
    let u := if pyIsdigit seeding then { u with seeding := (digitsVal seeding : Int) } else u
    let downloading := pyStrip (toChars (bar.downloadingNext.getD "0"))
    let u := if pyIsdigit downloading then { u with downloading := (digitsVal downloading : Int) } else u
    .ok { u with
          connectable := (bar.greenText.map (fun t => strContains t "是")).getD false }

/-- A userdetails.php page, abstracted to what `user_info` reads:
the stripped `h1` text, the label→cell table, and the info bar. -/
structure UserPage where
  h1 : Option String := none
  info : UserInfoTable := {}
  bar : InfoBar := {}

/-- `ByrApi.user_info` (api.py:225-249), with the current user's id already
resolved (`current_user_id`'s caching is modelled separately) and the
fetched pages supplied as a function of the user id. -/
def user_info (pfloat : String → Option Rat) (psize : String → Option Rat)
    (currentId : Int) (pages : Int → UserPage) (user_id : Int) :
    Except String ByrUser :=
  let uid := if user_id = 0 then currentId else user_id
  let page := pages uid
  match extract_user_info pfloat psize page.info
      { user_id := uid, username := page.h1.getD "" } with
  | .error e => .error e
  | .ok u => if uid = currentId then extract_info_bar page.bar u else .ok u

/-- The `_user_id` cache of `ByrApi` (api.py:202). -/
structure ApiState where
  userId : Int := 0
deriving DecidableEq, Repr

/-- `ByrApi.current_user_id` (api.py:214-223): returns the cached id when
nonzero, otherwise fetches the front page (modelled by `pageId`, the id
extracted from its `User_Name` link) and caches it.  The third component
counts page fetches performed by this call. -/
def current_user_id (pageId : Int) (s : ApiState) : Int × ApiState × Nat :=
  if s.userId ≠ 0 then (s.userId, s, 0) else (pageId, ⟨pageId⟩, 1)

/-- `n` successive `current_user_id` calls: the returned ids, the final
state, and the total number of page fetches. -/
def currentUserIdCalls (pageId : Int) : Nat → ApiState → List Int × ApiState × Nat
  | 0, s => ([], s, 0)
  | n + 1, s =>
    let r := current_user_id pageId s
    let rest := currentUserIdCalls pageId n r.2.1
    (r.1 :: rest.1, rest.2.1, r.2.2 + rest.2.2)

/-! ## Concrete fixture inputs for the listing extractor -/

/-- A concrete stand-in for `datetime.datetime.fromisoformat`: accepts one
fixed ISO string (as epoch seconds) and rejects everything else. -/
def pIso0 : String → Option Int :=
  fun s => if s = "2023-06-01T00:00:00" then some 1685577600 else none

/-- A concrete stand-in for `utils.convert_byr_size`. -/
def pSize0 : String → Option Rat := fun _ => some 1

/-- A concrete stand-in for `TorrentInfo.convert_byr_category`. -/
def cmap0 : String → String := fun _ => "Movies"

/-- A listing row whose publish-timestamp title attribute does not parse
as ISO-8601 (everything else well-formed). -/
def badRow : TorrentRow :=
  { catImgTitle := some "电影"
    commentsText := "3"
    timeTitle := some "garbage"
    sizeText := "1.0 GB"
    seedersText := "5"
    leechersText := "2"
    finishedText := "7"
    uploaderLink := none
    titleLink := some ("Title.A", 100)
    subtitleBr := none
    promo := fun _ => false }

/-- A fully well-formed listing row. -/
def goodRow : TorrentRow :=
  { catImgTitle := some "电影"
    commentsText := "1"
    timeTitle := some "2023-06-01T00:00:00"
    sizeText := "2.0 GB"
    seedersText := "8"
    leechersText := "0"
    finishedText := "4"
    uploaderLink := some (77, "uploader77")
    titleLink := some ("Title.B", 101)
    subtitleBr := some (some "副标题")
    promo := fun _ => false }

/-- The record that `extract_row` produces for `goodRow`. -/
def goodRec : TorrentInfo :=
  { title := toChars "Title.B"
    sub_title := "副标题"
    seed_id := 101
    cat := "电影"
    category := "Movies"
    promotions := []
    file_size := 1
    live_time := ((1685664000 - 1685577600 : Int) : Rat) / (60 * 60 * 24)
    seeders := 8
    leechers := 0
    finished := 4
    comments := 1
    uploader := { user_id := 77, username := "uploader77" }
    uploaded := 0
    downloaded := 0 }

/-! ## Theorems -/

theorem firstMatch_eq_find? (m : String → Bool) (l : List (String × List Promotion)) :
    firstMatch m l = ((l.find? (fun e => m e.1)).map Prod.snd).getD [] := by
  induction l with
  | nil => rfl
  | cons a rest ih =>
    obtain ⟨s, p⟩ := a
    by_cases h : m s
    · simp [firstMatch, List.find?, h]
    · simp [firstMatch, List.find?, h, ih]

/-- C4: the promotion classifier returns the flag-set of the first entry of
its fixed ordered selector table whose signature matches the cell (so a
cell matching several signatures at once, e.g. a background class and an
icon, gets exactly the first matching entry's flag-set), and the empty set
when no signature matches; `List.find?` states first-match-wins and the
`getD []` default states the empty-set fallback. -/
theorem promotion_first_match :
    (∀ m : String → Bool,
      extract_promotion_info m =
        ((selectors.find? (fun e => m e.1)).map Prod.snd).getD [])
    ∧ extract_promotion_info
        (fun s => s == "tr.twoup_bg" || s == "img.pro_free") = [PROMOTION_TWO_UP]
    ∧ extract_promotion_info (fun _ => false) = [] := by
  refine ⟨fun m => firstMatch_eq_find? m selectors, ?_, ?_⟩ <;> rfl

/-- C1: with a non-empty `extra` set, `remove_torrent` issues the
per-torrent removal events in this order: every sibling with file deletion
suppressed first, then exactly one file-deleting removal, of the target
torrent; any event with file deletion enabled sits at the last index,
after all suppressed sibling removals. -/
theorem remove_torrent_sibling_order (t : LocalTorrent) (ts : List LocalTorrent)
    (h : ts ≠ []) :
    deleteEvents (remove_torrent t (some ts)) =
      ts.map (fun s => (false, s.hash)) ++ [(true, t.hash)]
    ∧ ((deleteEvents (remove_torrent t (some ts))).filter (fun e => e.1)).length = 1
    ∧ ∀ (i : Nat) (e : Bool × String),
        (deleteEvents (remove_torrent t (some ts)))[i]? = some e →
        e.1 = true → i = ts.length := by
  have hev : deleteEvents (remove_torrent t (some ts)) =
      ts.map (fun s => (false, s.hash)) ++ [(true, t.hash)] := by
    simp [deleteEvents, remove_torrent, List.map_map, Function.comp]
  refine ⟨hev, ?_, ?_⟩
  · rw [hev]
    simp [List.filter_append, List.filter_map, Function.comp]
  · intro i e hsome htrue
    rw [hev] at hsome
    by_cases hlt : i < ts.length
    · exfalso
      have hmap : i < (ts.map (fun s => (false, s.hash))).length := by simpa using hlt
      rw [List.getElem?_append, if_pos hmap] at hsome
      rw [List.getElem?_map] at hsome
      simp only [Option.map_eq_some'] at hsome
      obtain ⟨a, _, he⟩ := hsome
      rw [← he] at htrue
      simp at htrue
    · have hlen : i < ts.length + 1 :=
        by simpa using (List.getElem?_eq_some_iff.mp hsome).1
      omega

theorem remove_torrent_sibling_order_witness :
    deleteEvents (remove_torrent { hash := "a" } (some [{ hash := "b" }])) =
      [(false, "b"), (true, "a")] := by
  have h := (remove_torrent_sibling_order { hash := "a" } [{ hash := "b" }]
    (by simp)).1
  simpa using h

/-- C7: `add_torrent` with an existing duplicate local torrent supplied
uses that torrent's save path and skips hash checking; with no duplicate
supplied (`exists=False`, the default) the save path is the realpath of
the target download directory joined with the record's category, plus the
secondary category when present, and hash checking is not skipped. -/
theorem add_torrent_save_path :
    ∀ (rp : String → String) (ul : Rat) (info : TorrentInfo) (dir : String)
      (paused : Bool) (t : LocalTorrent),
      ((add_torrent rp ul info dir paused (.localT t)).savePath = t.savePath
        ∧ (add_torrent rp ul info dir paused (.localT t)).skipChecking = true)
      ∧ ((add_torrent rp ul info dir paused (.boolArg false)).savePath =
            (if info.second_category = "" then joinPath (rp dir) info.category
             else joinPath (joinPath (rp dir) info.category) info.second_category)
        ∧ (add_torrent rp ul info dir paused (.boolArg false)).skipChecking = false) := by
  intro rp ul info dir paused t
  refine ⟨⟨rfl, rfl⟩, ?_, rfl⟩
  simp [add_torrent, get_download_dir, ExistsArg.toBool]

theorem currentUserIdCalls_cached (p : Int) (n : Nat) (s : ApiState)
    (h : s.userId ≠ 0) :
    currentUserIdCalls p n s = (List.replicate n s.userId, s, 0) := by
  induction n with
  | zero => simp [currentUserIdCalls]
  | succ n ih =>
    simp [currentUserIdCalls, current_user_id, h, ih, List.replicate_succ]

/-- C9: the current-user-id lookup is cached: from a state holding a
nonzero id, any number of further calls returns that same id with zero
page fetches and an unchanged state; and starting from the fresh state,
once the first call resolves a nonzero id, a whole sequence of `n + 1`
calls performs exactly one page fetch in total and every call returns the
same id, with the cache never changing afterwards. -/
theorem current_user_id_cached (p : Int) (n : Nat) (s : ApiState) :
    (s.userId ≠ 0 → currentUserIdCalls p n s = (List.replicate n s.userId, s, 0))
    ∧ (p ≠ 0 → currentUserIdCalls p (n + 1) ⟨0⟩ = (List.replicate (n + 1) p, ⟨p⟩, 1)) := by
  constructor
  · exact fun h => currentUserIdCalls_cached p n s h
  · intro hp
    have hstep : current_user_id p ⟨0⟩ = (p, ⟨p⟩, 1) := by
      simp [current_user_id]
    have hrest : currentUserIdCalls p n ⟨p⟩ = (List.replicate n p, ⟨p⟩, 0) :=
      currentUserIdCalls_cached p n ⟨p⟩ hp
    simp [currentUserIdCalls, hstep, hrest, List.replicate_succ]

theorem current_user_id_cached_witness :
    currentUserIdCalls 42 2 ⟨7⟩ = ([7, 7], ⟨7⟩, 0)
    ∧ currentUserIdCalls 42 3 ⟨0⟩ = ([42, 42, 42], ⟨42⟩, 1) := by
  constructor
  · have h := (current_user_id_cached 42 2 ⟨7⟩).1 (by decide)
    simpa using h
  · have h := (current_user_id_cached 42 2 ⟨0⟩).2 (by decide)
    simpa using h

/-- C10: in one `init_categories` call, the issued category-creation
commands are exactly the categories not already existing, in order
(existing ones are skipped, with no command issued for them); and because
the loop reassigns the base directory variable, each later-created
category's directory is placed under the directory computed for the
previously created category rather than directly under the base download
directory. -/
theorem init_categories_nesting :
    (∀ (rp : String → String) (dir : String) (cats ex : List String),
      (init_categories rp dir cats ex).map Prod.fst =
        cats.filter (fun c => !ex.contains c))
    ∧ (∀ (rp : String → String) (dir a b : String) (ex : List String),
        ex.contains a = false → ex.contains b = false →
        init_categories rp dir [a, b] ex =
          [(a, joinPath (rp dir) a),
           (b, joinPath (rp (joinPath (rp dir) a)) b)]) := by
  constructor
  · intro rp dir cats ex
    induction cats generalizing dir with
    | nil => rfl
    | cons c rest ih =>
      by_cases h : c ∈ ex
      · have hc : ex.contains c = true := by simpa using h
        simp [init_categories, h, hc, ih]
      · have hc : ex.contains c = false := by simpa using h
        simp [init_categories, h, hc, ih]
  · intro rp dir a b ex ha hb
    have ha2 : a ∉ ex := by simpa using ha
    have hb2 : b ∉ ex := by simpa using hb
    simp [init_categories, ha2, hb2]

theorem init_categories_nesting_witness :
    init_categories (fun s => s) "/dl" ["a", "b"] [] =
      [("a", "/dl/a"), ("b", "/dl/a/b")] := by
  have h := init_categories_nesting.2 (fun s => s) "/dl" "a" "b" [] rfl rfl
  rw [h]
  decide

/-! ### Decimal printing and parsing lemmas -/

theorem digitsVal_foldl (l : Str) : ∀ a : Nat,
    l.foldl (fun a c => a * 10 + (c.toNat - 48)) a = a * 10 ^ l.length + digitsVal l := by
  induction l with
  | nil => intro a; simp [digitsVal]
  | cons c l ih =>
    intro a
    show List.foldl _ (a * 10 + (c.toNat - 48)) l = _
    rw [ih]
    have h2 : digitsVal (c :: l) = (c.toNat - 48) * 10 ^ l.length + digitsVal l := by
      show List.foldl _ (0 * 10 + (c.toNat - 48)) l = _
      rw [ih]
      ring
    rw [h2, List.length_cons, pow_succ]
    ring

theorem char_ofNat_digit (r : Nat) (h : r < 10) :
    (Char.ofNat (48 + r)).toNat = 48 + r ∧ isDig (Char.ofNat (48 + r)) = true := by
  interval_cases r <;> exact ⟨by decide, by decide⟩

theorem natToDigitsAux_val (n : Nat) : ∀ acc : Str,
    digitsVal (natToDigitsAux n acc) = n * 10 ^ acc.length + digitsVal acc := by
  induction n using Nat.strong_induction_on with
  | _ n ih =>
    intro acc
    rw [natToDigitsAux]
    by_cases h : n = 0
    · simp [h]
    · rw [dif_neg h]
      have hlt : n / 10 < n := Nat.div_lt_self (Nat.pos_of_ne_zero h) (by norm_num)
      rw [ih (n / 10) hlt]
      have hr : n % 10 < 10 := Nat.mod_lt _ (by norm_num)
      have hdig : digitsVal (Char.ofNat (48 + n % 10) :: acc) =
          (n % 10) * 10 ^ acc.length + digitsVal acc := by
        show List.foldl _ (0 * 10 + ((Char.ofNat (48 + n % 10)).toNat - 48)) acc = _
        rw [(char_ofNat_digit (n % 10) hr).1]
        rw [digitsVal_foldl]
        simp
      rw [List.length_cons, hdig, pow_succ]
      conv_rhs => rw [← Nat.div_add_mod n 10]
      ring

theorem natToDigitsAux_all_digits (n : Nat) : ∀ acc : Str,
    (∀ c ∈ acc, isDig c = true) → ∀ c ∈ natToDigitsAux n acc, isDig c = true := by
  induction n using Nat.strong_induction_on with
  | _ n ih =>
    intro acc hacc
    rw [natToDigitsAux]
    by_cases h : n = 0
    · simpa [h] using hacc
    · rw [dif_neg h]
      have hlt : n / 10 < n := Nat.div_lt_self (Nat.pos_of_ne_zero h) (by norm_num)
      refine ih (n / 10) hlt _ ?_
      intro c hc
      rcases List.mem_cons.mp hc with h1 | h2
      · rw [h1]
        exact (char_ofNat_digit (n % 10) (Nat.mod_lt _ (by norm_num))).2
      · exact hacc c h2

theorem natToDigitsAux_ne_nil (n : Nat) : ∀ acc : Str, acc ≠ [] →
    natToDigitsAux n acc ≠ [] := by
  induction n using Nat.strong_induction_on with
  | _ n ih =>
    intro acc hacc
    rw [natToDigitsAux]
    by_cases h : n = 0
    · simpa [h] using hacc
    · rw [dif_neg h]
      have hlt : n / 10 < n := Nat.div_lt_self (Nat.pos_of_ne_zero h) (by norm_num)
      exact ih (n / 10) hlt _ (by simp)

theorem natRepr_all_digits (n : Nat) : ∀ c ∈ natRepr n, isDig c = true := by
  rw [natRepr]
  by_cases h : n = 0
  · simp [h]
    decide
  · rw [if_neg h]
    exact natToDigitsAux_all_digits n [] (by simp)

theorem natRepr_ne_nil (n : Nat) : natRepr n ≠ [] := by
  rw [natRepr]
  by_cases h : n = 0
  · simp [h]
  · rw [if_neg h]
    rw [natToDigitsAux, dif_neg h]
    exact natToDigitsAux_ne_nil _ _ (by simp)

theorem digitsVal_natRepr (n : Nat) : digitsVal (natRepr n) = n := by
  rw [natRepr]
  by_cases h : n = 0
  · simp [h]
    decide
  · rw [if_neg h, natToDigitsAux_val]
    simp [digitsVal]

theorem isDig_ne_special (c : Char) (h : isDig c = true) :
    c ≠ ']' ∧ c ≠ '-' ∧ c ≠ '+' ∧ c ≠ '[' := by
  refine ⟨?_, ?_, ?_, ?_⟩ <;> (intro he; rw [he] at h; exact absurd h (by decide))

theorem isWordChar_ne_special (c : Char) (h : isWordChar c = true) :
    c ≠ ']' ∧ c ≠ '-' := by
  constructor <;> (intro he; rw [he] at h; exact absurd h (by decide))

theorem isAlnumChar_isWordChar (c : Char) (h : isAlnumChar c = true) :
    isWordChar c = true := by
  rw [isWordChar]
  rw [isAlnumChar] at h
  simp only [Bool.or_eq_true] at *
  tauto

theorem isDig_isWordChar (c : Char) (h : isDig c = true) : isWordChar c = true := by
  rw [isWordChar]
  simp [h]

theorem parsePyInt_digits (l : Str) (h1 : l ≠ []) (h2 : ∀ c ∈ l, isDig c = true) :
    parsePyInt l = some ((digitsVal l : Nat) : Int) := by
  cases l with
  | nil => exact absurd rfl h1
  | cons c rest =>
    have hc : isDig c = true := h2 c (by simp)
    obtain ⟨_, hm, hp, _⟩ := isDig_ne_special c hc
    rw [parsePyInt, if_neg hm, if_neg hp, if_pos]
    simpa using h2

/-! ### takeWhile/dropWhile/index lemmas for the identity matcher -/

theorem takeWhile_run (p : Char → Bool) (l : Str) (hl : ∀ c ∈ l, p c = true)
    (c : Char) (hc : p c = false) (r : Str) :
    (l ++ c :: r).takeWhile p = l ∧ (l ++ c :: r).dropWhile p = c :: r := by
  induction l with
  | nil => simp [List.takeWhile_cons, List.dropWhile_cons, hc]
  | cons a l ih =>
    have ha : p a = true := hl a (by simp)
    have ih2 := ih (fun x hx => hl x (by simp [hx]))
    simp [List.takeWhile_cons, List.dropWhile_cons, ha, ih2.1, ih2.2]

theorem strIndex_append (c : Char) (l r : Str) (h : ∀ x ∈ l, x ≠ c) :
    strIndex c (l ++ c :: r) = some l.length := by
  induction l with
  | nil => simp [strIndex]
  | cons x l ih =>
    have hx : x ≠ c := h x (by simp)
    have ih2 := ih (fun y hy => h y (by simp [hy]))
    simp [strIndex, hx, ih2]

theorem isPrefixOf_append (l r : Str) : l.isPrefixOf (l ++ r) = true := by
  induction l with
  | nil => simp [List.isPrefixOf]
  | cons a l ih => simpa [List.isPrefixOf] using ih

/-! ### Evaluation of the identity matcher on canonical names -/

theorem matchSiteTag_canonical (s d tail : Str) (hs : s ≠ [])
    (hw : ∀ c ∈ s, isWordChar c = true) (hd : d ≠ [])
    (hdd : ∀ c ∈ d, isDig c = true) :
    matchSiteTag ('[' :: (s ++ '-' :: (d ++ ']' :: tail))) = some s := by
  have hword := takeWhile_run isWordChar s hw '-' (by decide) (d ++ ']' :: tail)
  have hdig := takeWhile_run isDig d hdd ']' (by decide) tail
  simp [matchSiteTag, hword.1, hword.2, hdig.1, hdig.2, List.isEmpty_iff, hs, hd]

theorem local_torrent_from_canonical (s d tail : Str) (hs : s ≠ [])
    (hw : ∀ c ∈ s, isWordChar c = true) (hd : d ≠ [])
    (hdd : ∀ c ∈ d, isDig c = true) :
    identify ('[' :: (s ++ '-' :: (d ++ ']' :: tail))) =
      (if ((digitsVal d : Nat) : Int) ≠ 0 then .ok (s, ((digitsVal d : Nat) : Int))
       else .error ("种子命名不符合要求：" ++
         String.mk ('[' :: (s ++ '-' :: (d ++ ']' :: tail))))) := by
  have hshape : '[' :: (s ++ '-' :: (d ++ ']' :: tail)) =
      ('[' :: (s ++ ['-'])) ++ (d ++ ']' :: tail) := by
    simp
  have hshape2 : '[' :: (s ++ '-' :: (d ++ ']' :: tail)) =
      ('[' :: (s ++ ['-'] ++ d)) ++ ']' :: tail := by
    simp
  have hpre : (('[' :: (s ++ ['-'])) : Str).isPrefixOf
      ('[' :: (s ++ '-' :: (d ++ ']' :: tail))) = true := by
    rw [hshape]
    exact isPrefixOf_append _ _
  have hidx : strIndex ']' ('[' :: (s ++ '-' :: (d ++ ']' :: tail))) =
      some (('[' :: (s ++ ['-'] ++ d)).length) := by
    rw [hshape2]
    refine strIndex_append ']' _ _ ?_
    intro x hx
    rcases List.mem_cons.mp hx with h1 | h2
    · rw [h1]; decide
    · rcases List.mem_append.mp h2 with h3 | h4
      · rcases List.mem_append.mp h3 with h5 | h6
        · exact (isWordChar_ne_special x (hw x h5)).1
        · rw [List.mem_singleton.mp h6]; decide
      · exact (isDig_ne_special x (hdd x h4)).1
  have hdrop : (('[' :: (s ++ '-' :: (d ++ ']' :: tail))).drop
      (('[' :: (s ++ ['-'])) : Str).length) = d ++ ']' :: tail := by
    rw [hshape]
    exact List.drop_left _ _
  have hlen : ('[' :: (s ++ ['-'] ++ d)).length - (('[' :: (s ++ ['-'])) : Str).length
      = d.length := by
    simp
    omega
  rw [identify, local_torrent_from]
  rw [matchSiteTag_canonical s d tail hs hw hd hdd]
  simp only
  rw [if_pos hpre, hidx]
  simp only [hlen, hdrop]
  rw [List.take_left]
  rw [int_or, parsePyInt_digits d hd hdd]
  rfl

/-- C2: for an alphanumeric nonempty site key, a positive id and any
title, `_generate_rename` produces exactly `[{site}-{seedId}]{title}`
(single hyphen inside the brackets, the id printed as a plain decimal
via `intRepr`, the title immediately after the closing bracket), and the
local identity matcher (`local_torrent_from` with the site recovered from
the name) parses that name back to the same `(site, seedId)` pair. -/
theorem generate_rename_round_trip (site : Str) (seedId : Int) (title : Str)
    (hs : site ≠ []) (halnum : ∀ c ∈ site, isAlnumChar c = true)
    (hid : 0 < seedId) :
    generate_rename { site := site, seed_id := seedId, title := title } =
      '[' :: (site ++ '-' :: (intRepr seedId ++ ']' :: title))
    ∧ identify (generate_rename { site := site, seed_id := seedId, title := title }) =
        .ok (site, seedId) := by
  refine ⟨rfl, ?_⟩
  have hw : ∀ c ∈ site, isWordChar c = true :=
    fun c hc => isAlnumChar_isWordChar c (halnum c hc)
  have hrepr : intRepr seedId = natRepr seedId.toNat := by
    rw [intRepr, if_neg (by omega)]
  have hd : intRepr seedId ≠ [] := by
    rw [hrepr]; exact natRepr_ne_nil _
  have hdd : ∀ c ∈ intRepr seedId, isDig c = true := by
    rw [hrepr]; exact natRepr_all_digits _
  have hval : ((digitsVal (intRepr seedId) : Nat) : Int) = seedId := by
    rw [hrepr, digitsVal_natRepr]
    exact Int.toNat_of_nonneg (le_of_lt hid)
  have hname : generate_rename { site := site, seed_id := seedId, title := title } =
      '[' :: (site ++ '-' :: (intRepr seedId ++ ']' :: title)) := rfl
  rw [hname, local_torrent_from_canonical site (intRepr seedId) title hs hw hd hdd]
  rw [if_pos (by rw [hval]; omega)]
  rw [hval]

theorem generate_rename_round_trip_witness :
    identify (generate_rename
      { site := toChars "byr", seed_id := 12, title := toChars "Movie" }) =
      .ok (toChars "byr", 12) :=
  (generate_rename_round_trip (toChars "byr") 12 (toChars "Movie")
    (by decide) (by decide) (by decide)).2

theorem matchSiteTag_some (name w : Str) (h : matchSiteTag name = some w) :
    w ≠ [] ∧ (∀ c ∈ w, isWordChar c = true) ∧
    ∃ d tail, d ≠ [] ∧ (∀ c ∈ d, isDig c = true) ∧
      name = '[' :: (w ++ '-' :: (d ++ ']' :: tail)) := by
  cases name with
  | nil => exact absurd h (by rw [matchSiteTag]; simp)
  | cons c rest =>
    rw [matchSiteTag] at h
    by_cases hc : c = '['
    · subst hc
      rw [if_pos rfl] at h
      try simp only at h
      by_cases hw : (rest.takeWhile isWordChar).isEmpty
      · rw [if_pos hw] at h; exact absurd h (by simp)
      · rw [if_neg hw] at h
        rcases hr1 : rest.dropWhile isWordChar with _ | ⟨c1, r2⟩
        · rw [hr1] at h; exact absurd h (by simp)
        · rw [hr1] at h
          try simp only at h
          by_cases hc1 : c1 = '-'
          · subst hc1
            rw [if_pos rfl] at h
            try simp only at h
            by_cases hd : (r2.takeWhile isDig).isEmpty
            · rw [if_pos hd] at h; exact absurd h (by simp)
            · rw [if_neg hd] at h
              rcases hr3 : r2.dropWhile isDig with _ | ⟨c2, tail⟩
              · rw [hr3] at h; exact absurd h (by simp)
              · rw [hr3] at h
                try simp only at h
                by_cases hc2 : c2 = ']'
                · subst hc2
                  rw [if_pos rfl] at h
                  have hw2 : rest.takeWhile isWordChar = w := Option.some.inj h
                  refine ⟨?_, ?_, r2.takeWhile isDig, tail, ?_, ?_, ?_⟩
                  · intro he
                    exact hw (by rw [hw2.trans he]; rfl)
                  · intro x hx
                    rw [← hw2] at hx
                    exact List.mem_takeWhile_imp hx
                  · intro he
                    exact hd (by rw [he]; rfl)
                  · intro x hx
                    exact List.mem_takeWhile_imp hx
                  · have hrest : rest = rest.takeWhile isWordChar ++ ('-' :: r2) := by
                      conv_lhs =>
                        rw [← List.takeWhile_append_dropWhile isWordChar rest]
                      rw [hr1]
                    have hr2eq : r2 = r2.takeWhile isDig ++ (']' :: tail) := by
                      conv_lhs =>
                        rw [← List.takeWhile_append_dropWhile isDig r2]
                      rw [hr3]
                    conv_lhs => rw [hrest, hw2, hr2eq]
                · rw [if_neg hc2] at h; exact absurd h (by simp)
          · rw [if_neg hc1] at h; exact absurd h (by simp)
    · rw [if_neg hc] at h; exact absurd h (by simp)

/-- C3: the local identity matcher `identify` returns
`("byr", 1024)` on `"[byr-1024]Some.Title"`, a recognizable `ValueError`
(not a crash — the function is total into `Except`) on `"randomname"` and
on `"[byr-0]Title"` (the id must be positive); and in general it succeeds
exactly on names of the bracketed-prefix form `[site-digits]...` with a
nonempty word-character site token and digits of positive value,
returning that site and value. -/
theorem local_identity_matcher_spec :
    identify (toChars "[byr-1024]Some.Title") = .ok (toChars "byr", 1024)
    ∧ (∃ e, identify (toChars "randomname") = .error e)
    ∧ (∃ e, identify (toChars "[byr-0]Title") = .error e)
    ∧ (∀ name s i, identify name = .ok (s, i) →
        0 < i ∧ s ≠ [] ∧ (∀ c ∈ s, isWordChar c = true) ∧
        ∃ d tail, d ≠ [] ∧ (∀ c ∈ d, isDig c = true) ∧
          ((digitsVal d : Nat) : Int) = i ∧
          name = '[' :: (s ++ '-' :: (d ++ ']' :: tail)))
    ∧ (∀ s d tail, s ≠ [] → (∀ c ∈ s, isWordChar c = true) →
        d ≠ [] → (∀ c ∈ d, isDig c = true) → digitsVal d ≠ 0 →
        identify ('[' :: (s ++ '-' :: (d ++ ']' :: tail))) =
          .ok (s, ((digitsVal d : Nat) : Int))) := by
  refine ⟨by rfl, ⟨_, by rfl⟩, ⟨_, by rfl⟩, ?_, ?_⟩
  · intro name s i h
    rcases hm : matchSiteTag name with _ | w
    · rw [identify, local_torrent_from, hm] at h
      exact absurd h (by simp)
    · obtain ⟨hw0, hw, d, tail, hd0, hd, hshape⟩ := matchSiteTag_some name w hm
      rw [hshape] at h
      rw [local_torrent_from_canonical w d tail hw0 hw hd0 hd] at h
      by_cases hz : ((digitsVal d : Nat) : Int) ≠ 0
      · rw [if_pos hz] at h
        have hpair := Except.ok.inj h
        have hs : s = w ∧ i = ((digitsVal d : Nat) : Int) :=
          ⟨(congrArg Prod.fst hpair).symm, (congrArg Prod.snd hpair).symm⟩
        refine ⟨?_, hs.1 ▸ hw0, hs.1 ▸ hw, d, tail, hd0, hd, hs.2.symm, hs.1 ▸ hshape⟩
        rw [hs.2]
        omega
      · rw [if_neg hz] at h
        exact absurd h (by simp)
  · intro s d tail hs hw hd0 hd hz
    rw [local_torrent_from_canonical s d tail hs hw hd0 hd]
    rw [if_pos (by omega)]

theorem local_identity_matcher_spec_witness :
    identify ('[' :: (toChars "abc1" ++ '-' :: (toChars "070" ++ ']' :: toChars "x]y"))) =
      .ok (toChars "abc1", 70) := by
  have h := local_identity_matcher_spec.2.2.2.2 (toChars "abc1") (toChars "070")
    (toChars "x]y") (by decide) (by decide) (by decide) (by decide) (by decide)
  have hv : ((digitsVal (toChars "070") : Nat) : Int) = 70 := by decide
  rw [hv] at h
  exact h

/-! ### Listing extractor (C5, C6) -/

/-- C6: in a successfully extracted listing row, when the uploader cell
has no profile link the record's uploader is the anonymous sentinel
(id 0, name `"匿名"`, i.e. "anonymous"); when a profile link is present
the uploader's id and name are the ones recovered from the link. -/
theorem extract_row_uploader (pIso : String → Option Int)
    (pSize : String → Option Rat) (cmap : String → String) (now : Int)
    (row : TorrentRow) (ti : TorrentInfo)
    (h : extract_row pIso pSize cmap now row = .ok ti) :
    (row.uploaderLink = none →
      ti.uploader.user_id = 0 ∧ ti.uploader.username = "匿名")
    ∧ (∀ uid uname, row.uploaderLink = some (uid, uname) →
      ti.uploader.user_id = uid ∧ ti.uploader.username = uname) := by
  rcases hcat : row.catImgTitle with _ | cat
  · rw [extract_row, hcat] at h
    exact absurd h (by simp)
  · rcases htt : row.timeTitle with _ | tt
    · rw [extract_row, hcat, htt] at h
      exact absurd h (by simp)
    · rcases hpi : pIso tt with _ | t
      · rw [extract_row, hcat, htt] at h
        simp only [hpi] at h
        exact absurd h (by simp)
      · rcases hps : pSize row.sizeText with _ | sz
        · rw [extract_row, hcat, htt] at h
          simp only [hpi, hps] at h
          exact absurd h (by simp)
        · rcases htl : row.titleLink with _ | tl
          · rw [extract_row, hcat, htt, htl] at h
            simp only [hpi, hps] at h
            exact absurd h (by simp)
          · rw [extract_row, hcat, htt, htl] at h
            simp only [hpi, hps] at h
            simp only [Except.ok.injEq] at h
            constructor
            · intro hnone
              rw [hnone] at h
              rw [← h]
              exact ⟨rfl, rfl⟩
            · intro uid uname hsome
              rw [hsome] at h
              rw [← h]
              exact ⟨rfl, rfl⟩

theorem extract_row_uploader_witness :
    extract_row pIso0 pSize0 cmap0 1685664000 goodRow = .ok goodRec
    ∧ goodRec.uploader.user_id = 77 ∧ goodRec.uploader.username = "uploader77" := by
  have hok : extract_row pIso0 pSize0 cmap0 1685664000 goodRow = .ok goodRec := by rfl
  exact ⟨hok, (extract_row_uploader pIso0 pSize0 cmap0 1685664000 goodRow goodRec
    hok).2 77 "uploader77" rfl⟩

/-- C5 counterexample: with a first row whose publish timestamp does not
parse and a second, fully well-formed row, `extract_torrent_table` does
not return the second row's record alongside a per-row error — it returns
only the error, aborting the whole page (while the second row alone
extracts fine). -/
theorem extract_table_abort_counterexample :
    extract_torrent_table pIso0 pSize0 cmap0 1685664000 [badRow, goodRow] =
      .error "ValueError: fromisoformat"
    ∧ (extract_torrent_table pIso0 pSize0 cmap0 1685664000 [goodRow]).isOk = true := by
  exact ⟨rfl, rfl⟩

/-- C5 (amended): when any row of the page fails to extract (unparseable
publish timestamp or another required attribute missing), the whole page
extraction fails — the row's error propagates out of the loop and no
partial list of the other rows' records is returned. -/
theorem extract_table_error_aborts_page (pIso : String → Option Int)
    (pSize : String → Option Rat) (cmap : String → String) (now : Int)
    (rows : List TorrentRow) (row : TorrentRow) (hmem : row ∈ rows)
    (hfail : (extract_row pIso pSize cmap now row).isOk = false) :
    (extract_torrent_table pIso pSize cmap now rows).isOk = false := by
  induction rows with
  | nil => exact absurd hmem (by simp)
  | cons r rest ih =>
    rcases List.mem_cons.mp hmem with h1 | h2
    · rcases he : extract_row pIso pSize cmap now r with e | v
      · simp [extract_torrent_table, he, Except.isOk, Except.toBool]
      · rw [← h1] at he
        rw [he] at hfail
        exact absurd hfail (by simp [Except.isOk, Except.toBool])
    · rcases he : extract_row pIso pSize cmap now r with e | v
      · simp [extract_torrent_table, he, Except.isOk, Except.toBool]
      · have ih2 := ih h2
        rcases ht : extract_torrent_table pIso pSize cmap now rest with e2 | l
        · simp [extract_torrent_table, he, ht, Except.isOk, Except.toBool]
        · rw [ht] at ih2
          exact absurd ih2 (by simp [Except.isOk, Except.toBool])

theorem extract_table_error_aborts_page_witness :
    (extract_torrent_table pIso0 pSize0 cmap0 1685664000 [goodRow, badRow]).isOk
      = false :=
  extract_table_error_aborts_page pIso0 pSize0 cmap0 1685664000
    [goodRow, badRow] badRow (by simp) (by rfl)

/-! ### User profile extractor (C8) -/

theorem applyLevel_frame (info : UserInfoTable) (u : ByrUser) :
    (applyLevel info u).ranking = u.ranking
    ∧ (applyLevel info u).seeding = u.seeding
    ∧ (applyLevel info u).downloading = u.downloading
    ∧ (applyLevel info u).connectable = u.connectable := by
  rcases hl : info.level with _ | ⟨_ | t⟩ <;> simp [applyLevel, hl]

theorem applyMana_frame (pfloat : String → Option Rat) (info : UserInfoTable)
    (u u' : ByrUser) (h : applyMana pfloat info u = .ok u') :
    u'.ranking = u.ranking ∧ u'.seeding = u.seeding
    ∧ u'.downloading = u.downloading ∧ u'.connectable = u.connectable := by
  rw [applyMana] at h
  rcases hm : info.mana with _ | s <;> rw [hm] at h
  · simp at h
    rw [← h]
    exact ⟨rfl, rfl, rfl, rfl⟩
  · try simp only at h
    rcases hv : pfloat s with _ | v <;> rw [hv] at h
    · exact absurd h (by simp)
    · simp at h
      rw [← h]
      exact ⟨rfl, rfl, rfl, rfl⟩

theorem applyInvitations_frame (info : UserInfoTable) (u u' : ByrUser)
    (h : applyInvitations info u = .ok u') :
    u'.ranking = u.ranking ∧ u'.seeding = u.seeding
    ∧ u'.downloading = u.downloading ∧ u'.connectable = u.connectable := by
  rw [applyInvitations] at h
  rcases hi : info.invitations with _ | s <;> rw [hi] at h
  · simp at h
    rw [← h]
    exact ⟨rfl, rfl, rfl, rfl⟩
  · try simp only at h
    by_cases hc : strContains s "没有邀请资格"
    · rw [if_pos hc] at h
      simp at h
      rw [← h]
      exact ⟨rfl, rfl, rfl, rfl⟩
    · rw [if_neg hc] at h
      rcases hv : parsePyInt (toChars s) with _ | v <;> rw [hv] at h
      · exact absurd h (by simp)
      · simp at h
        rw [← h]
        exact ⟨rfl, rfl, rfl, rfl⟩

theorem applyTransferCells_frame (pfloat psize : String → Option Rat)
    (cells : List String) : ∀ (u u' : ByrUser),
    applyTransferCells pfloat psize cells u = .ok u' →
    u'.ranking = u.ranking ∧ u'.seeding = u.seeding
    ∧ u'.downloading = u.downloading ∧ u'.connectable = u.connectable := by
  induction cells with
  | nil =>
    intro u u' h
    rw [applyTransferCells] at h
    simp at h
    rw [← h]
    exact ⟨rfl, rfl, rfl, rfl⟩
  | cons text rest ih =>
    intro u u' h
    rw [applyTransferCells] at h
    rcases hsp : splitColon text with _ | ⟨field, value⟩ <;> rw [hsp] at h
    · exact ih u u' h
    · try simp only at h
      by_cases h1 : field = toChars "分享率"
      · rw [if_pos h1] at h
        rcases hv : pfloat (String.mk value) with _ | v <;> rw [hv] at h
        · exact absurd h (by simp)
        · try simp only at h
          exact ih { u with ratio := v } u' h
      · rw [if_neg h1] at h
        by_cases h2 : field = toChars "上传量"
        · rw [if_pos h2] at h
          rcases hv : psize (String.mk value) with _ | v <;> rw [hv] at h
          · exact absurd h (by simp)
          · try simp only at h
            exact ih { u with uploaded := v } u' h
        · rw [if_neg h2] at h
          by_cases h3 : field = toChars "下载量"
          · rw [if_pos h3] at h
            rcases hv : psize (String.mk value) with _ | v <;> rw [hv] at h
            · exact absurd h (by simp)
            · try simp only at h
              exact ih { u with downloaded := v } u' h
          · rw [if_neg h3] at h
            exact ih u u' h

theorem extract_user_info_frame (pfloat psize : String → Option Rat)
    (info : UserInfoTable) (u u' : ByrUser)
    (h : extract_user_info pfloat psize info u = .ok u') :
    u'.ranking = u.ranking ∧ u'.seeding = u.seeding
    ∧ u'.downloading = u.downloading ∧ u'.connectable = u.connectable := by
  rw [extract_user_info] at h
  rcases h1 : applyMana pfloat info (applyLevel info u) with e | u1 <;> rw [h1] at h
  · exact absurd h (by simp)
  · try simp only at h
    rcases h2 : applyInvitations info u1 with e | u2 <;> rw [h2] at h
    · exact absurd h (by simp)
    · try simp only at h
      have f0 := applyLevel_frame info u
      have f1 := applyMana_frame pfloat info (applyLevel info u) u1 h1
      have f2 := applyInvitations_frame info u1 u2 h2
      rcases ht : info.transfer with _ | cells <;> rw [ht] at h
      · simp at h
        rw [← h]
        refine ⟨?_, ?_, ?_, ?_⟩
        · rw [f2.1, f1.1, f0.1]
        · rw [f2.2.1, f1.2.1, f0.2.1]
        · rw [f2.2.2.1, f1.2.2.1, f0.2.2.1]
        · rw [f2.2.2.2, f1.2.2.2, f0.2.2.2]
      · have f3 := applyTransferCells_frame pfloat psize cells u2 u' h
        refine ⟨?_, ?_, ?_, ?_⟩
        · rw [f3.1, f2.1, f1.1, f0.1]
        · rw [f3.2.1, f2.2.1, f1.2.1, f0.2.1]
        · rw [f3.2.2.1, f2.2.2.1, f1.2.2.1, f0.2.2.1]
        · rw [f3.2.2.2, f2.2.2.2, f1.2.2.2, f0.2.2.2]

/-- C8: for a queried user who is not the current logged-in user, the
profile extraction runs only the main-table extractor (the info-bar step
is skipped), so the info-bar-only fields keep their defaults — no
ranking, zero live seeding/downloading counts, not connectable; and the
info-bar step, when it does run, never alters any field extracted from
the main profile table (level, mana, invitations, ratio, uploaded,
downloaded) nor the username/user-id. -/
theorem user_info_info_bar_frame :
    (∀ (pfloat psize : String → Option Rat) (cur : Int) (pages : Int → UserPage)
       (uid : Int), uid ≠ 0 → uid ≠ cur →
      user_info pfloat psize cur pages uid =
        extract_user_info pfloat psize (pages uid).info
          { user_id := uid, username := (pages uid).h1.getD "" }
      ∧ ∀ u, user_info pfloat psize cur pages uid = .ok u →
          u.ranking = none ∧ u.seeding = 0 ∧ u.downloading = 0
          ∧ u.connectable = false)
    ∧ (∀ (bar : InfoBar) (u u' : ByrUser), extract_info_bar bar u = .ok u' →
        u'.level = u.level ∧ u'.mana = u.mana ∧ u'.invitations = u.invitations
        ∧ u'.ratio = u.ratio ∧ u'.uploaded = u.uploaded
        ∧ u'.downloaded = u.downloaded ∧ u'.username = u.username
        ∧ u'.user_id = u.user_id) := by
  constructor
  · intro pfloat psize cur pages uid h0 hcur
    have heq : user_info pfloat psize cur pages uid =
        extract_user_info pfloat psize (pages uid).info
          { user_id := uid, username := (pages uid).h1.getD "" } := by
      rw [user_info]
      simp only [if_neg h0]
      rcases he : extract_user_info pfloat psize (pages uid).info
          { user_id := uid, username := (pages uid).h1.getD "" } with e | u
      · rfl
      · simp only [if_neg hcur]
    refine ⟨heq, ?_⟩
    intro u hu
    rw [heq] at hu
    have hf := extract_user_info_frame pfloat psize (pages uid).info
      { user_id := uid, username := (pages uid).h1.getD "" } u hu
    simpa using hf
  · intro bar u u' h
    rw [extract_info_bar] at h
    rcases hf : bar.bonus.find? (fun e => strContains e.1 "上传排行") with _ | tag
      <;> rw [hf] at h
    · exact absurd h (by simp)
    · simp only at h
      split_ifs at h <;>
        (simp at h; rw [← h]; exact ⟨rfl, rfl, rfl, rfl, rfl, rfl, rfl, rfl⟩)

theorem user_info_info_bar_frame_witness :
    user_info (fun _ => none) (fun _ => none) 1 (fun _ => {}) 2 =
      .ok { user_id := 2, username := "" }
    ∧ ({ user_id := 2, username := "" } : ByrUser).ranking = none
    ∧ ({ user_id := 2, username := "" } : ByrUser).seeding = 0
    ∧ ({ user_id := 2, username := "" } : ByrUser).downloading = 0
    ∧ ({ user_id := 2, username := "" } : ByrUser).connectable = false := by
  have h := (user_info_info_bar_frame.1 (fun _ => none) (fun _ => none) 1
    (fun _ => {}) 2 (by decide) (by decide)).2
  have hok : user_info (fun _ => none) (fun _ => none) 1 (fun _ => {}) 2 =
      .ok { user_id := 2, username := "" } := by rfl
  exact ⟨hok, h _ hok⟩

end ByreSpec
